import Mathlib

/-
Verification of the chess rules engine in src/src/main.rs (the canonical,
later revision of the two main-file variants).

Modelling conventions:
- `Location` is a pair (x, y) of natural numbers; the Rust board index
  `board[loc]` reads `rows[loc.1][loc.0]`, i.e. y selects the row and x the
  column.  We model `Board` directly as a function from (x, y) locations to
  optional pieces, so `b (x, y)` is the Rust `board[(x, y)]`.
- Displacement vectors and derived coordinates use `Int`, mirroring the
  Rust `i8` arithmetic (no overflow is possible: all values stay within
  [-16, 16]).
- Rust panics (a failed `unwrap`, the `King already dead?` branch) are
  modelled by `Option`: `none` is a panic, `some` a normal return.
- The mutual recursion get_moves -> filter -> is_checked -> get_moves is
  bounded in the source, because the speculative games built by the filter
  always carry a cleared checked flag.  We realise it with a structural
  recursion on an explicit depth argument (`get_movesF`); depth 3 and 2 are
  exact for `get_moves` and `is_checked` on every input, since the inner
  speculative games never filter again.
-/

set_option maxRecDepth 100000

namespace Chess

inductive Color where
  | Black
  | White
deriving DecidableEq, Repr

inductive PieceKind where
  | Pawn
  | Knight
  | Bishop
  | Rook
  | Queen
  | King
deriving DecidableEq, Repr

structure Piece where
  kind : PieceKind
  color : Color
deriving DecidableEq, Repr

abbrev Location : Type := Nat × Nat

abbrev IVec : Type := Int × Int

abbrev Board : Type := Location → Option Piece

structure Game where
  board : Board
  cur_en_passant : Option Location
  is_checked : Bool

/-- Board write `board[l] = v` (all other squares untouched). -/
def bset (b : Board) (l : Location) (v : Option Piece) : Board :=
  fun l' => if l' = l then v else b l'

/-- Rust `(loc.0 as i8 + d.0, loc.1 as i8 + d.1)`. -/
def locAdd (loc : Location) (d : IVec) : IVec :=
  ((loc.1 : Int) + d.1, (loc.2 : Int) + d.2)

/-- Rust `(new_loc.0 as usize, new_loc.1 as usize)` after a bounds check. -/
def toLoc (p : IVec) : Location :=
  (p.1.toNat, p.2.toNat)

/-- Source `is_out_of_bounds`. -/
def is_out_of_bounds (l : IVec) : Bool :=
  decide (l.1 < 0) || decide (l.2 < 0) || decide (l.1 > 7) || decide (l.2 > 7)

/-- Source `dist`: Manhattan distance, `a.1.abs_diff(b.1) + a.0.abs_diff(b.0)`. -/
def dist (a b : Location) : Nat :=
  Nat.dist a.2 b.2 + Nat.dist a.1 b.1

/-- The `match` on the mover's color inside the legal-move filter (and the
turn flip in `main`). -/
def opponent : Color → Color
  | Color.Black => Color.White
  | Color.White => Color.Black

def knightTiles : List IVec :=
  [(-1,-2),(1,-2),(2,-1),(2,1),(1,2),(-1,2),(-2,1),(-2,-1)]

def kingTiles : List IVec :=
  [(-1,0),(-1,-1),(0,-1),(1,-1),(1,0),(1,1),(0,1),(-1,1)]

def diagDirs : List IVec :=
  [(-1,-1),(1,-1),(1,1),(-1,1)]

def orthDirs : List IVec :=
  [(-1,0),(0,-1),(1,0),(0,1)]

/-- One sliding walk of the source's bishop/rook/queen arms: while the next
square in direction `d` is on the board and empty, push the accumulated
vector `change`; at the first occupied on-board square push `change` only if
that piece's color differs from the mover's; stop at the edge otherwise.
The walk visits at most 8 squares from an on-board origin (the 8th multiple
of a unit direction is always off the board), so the structural counter
never runs out on on-board origins. -/
def slideGo (b : Board) (loc : Location) (c : Color) (d : IVec) :
    IVec → Nat → List IVec
  | _, 0 => []
  | change, fuel+1 =>
    let nl := locAdd loc change
    if is_out_of_bounds nl then []
    else
      match b (toLoc nl) with
      | none => change :: slideGo b loc c d (change.1 + d.1, change.2 + d.2) fuel
      | some x => if x.color ≠ c then [change] else []

def slideFrom (b : Board) (loc : Location) (c : Color) (d : IVec) : List IVec :=
  slideGo b loc c d d 8

/-- One test of the source pawn arm's en-passant loop: the diagonal
neighbor `loc + dir` is on the board and equals the current en-passant
target. -/
def ep_diag_matches (g : Game) (loc : Location) (dir : IVec) : Bool :=
  !is_out_of_bounds (locAdd loc dir) &&
    decide (g.cur_en_passant = some (toLoc (locAdd loc dir)))

/-- The en-passant scan of the source's pawn arm: try the two forward
diagonals in order, skip off-board ones, and on the first one equal to the
current en-passant target return exactly that diagonal; otherwise the single
forward vector. -/
def pawn_ep_scan (g : Game) (loc : Location) (dirs : List IVec) (fwd : IVec) :
    List IVec :=
  match dirs.find? (ep_diag_matches g loc) with
  | some dir => [dir]
  | none => [fwd]

/-- The per-kind `match piece.kind` of source `get_moves` (lines 84-229),
before the checked-flag filter. -/
def pattern_moves (g : Game) (loc : Location) (piece : Piece) : List IVec :=
  match piece.kind with
  | PieceKind.Pawn =>
    match piece.color with
    | Color.Black =>
      if loc.2 = 1 then [(0,1),(0,2)]
      else pawn_ep_scan g loc [(1,1),(-1,1)] (0,1)
    | Color.White =>
      if loc.2 = 8-2 then [(0,-1),(0,-2)]
      else pawn_ep_scan g loc [(-1,-1),(1,-1)] (0,-1)
  | PieceKind.Knight =>
    knightTiles.filter (fun tile =>
      let nl := locAdd loc tile
      !is_out_of_bounds nl &&
        (match g.board (toLoc nl) with
         | none => true
         | some x => decide (x.color ≠ piece.color)))
  | PieceKind.Bishop =>
    diagDirs.flatMap (slideFrom g.board loc piece.color)
  | PieceKind.Rook =>
    orthDirs.flatMap (slideFrom g.board loc piece.color)
  | PieceKind.Queen =>
    diagDirs.flatMap (slideFrom g.board loc piece.color) ++
      orthDirs.flatMap (slideFrom g.board loc piece.color)
  | PieceKind.King =>
    kingTiles.filter (fun tile =>
      let nl := locAdd loc tile
      !is_out_of_bounds nl &&
        (match g.board (toLoc nl) with
         | none => true
         | some x => decide (x.color ≠ piece.color)))

/-- The speculative game built by the legal-move filter for candidate `mv`
from `loc`: copy the game, clear the checked flag, write the moving piece to
the destination and clear the source. -/
def specGame (g : Game) (loc : Location) (mv : IVec) : Game :=
  { board := bset (bset g.board (toLoc (locAdd loc mv)) (g.board loc)) loc none
    cur_en_passant := g.cur_en_passant
    is_checked := false }

/-- Source `get_king_location`: scan `i` (x) in the outer loop and `j` (y)
in the inner loop, returning the first King of `color`; `none` models the
`King already dead?` abort. -/
def get_king_location (b : Board) (color : Color) : Option Location :=
  ((List.range 8).flatMap (fun i => (List.range 8).map (fun j => ((i, j) : Location)))).find?
    (fun l =>
      match b l with
      | some piece => decide (piece.kind = PieceKind.King) && decide (piece.color = color)
      | none => false)

/-- The destination test of source `is_checked`'s inner loop: the move's
target square is on the board and holds a piece of the probe's kind and of
the opposite color. -/
def probe_dest_hit (b : Board) (loc : Location) (k : PieceKind) (c : Color)
    (mv : IVec) : Bool :=
  let nl := locAdd loc mv
  !is_out_of_bounds nl &&
    (match b (toLoc nl) with
     | some target_piece =>
       decide (target_piece.kind = k) && decide (target_piece.color ≠ c)
     | none => false)

/-- The probe loop of source `is_checked`, parametric in the `get_moves`
being called (`gm`): overwrite the king's square with each probe kind in
turn, generate that probe's moves, and stop with `true` at the first probe
whose move list reaches an opposing piece of the probe's kind; restore the
original occupant on both return paths.  The checked flag is written (to
`true`) only on a hit. -/
def is_checked_goF (gm : Location → Game → Option (List IVec)) (c : Color)
    (loc : Location) (orig : Option Piece) :
    Game → List PieceKind → Option (Bool × Game)
  | g, [] => some (false, { g with board := bset g.board loc orig })
  | g, piece_kind :: rest =>
    let g1 : Game := { g with board := bset g.board loc (some ⟨piece_kind, c⟩) }
    match gm loc g1 with
    | none => none
    | some possible_moves =>
      if possible_moves.any (probe_dest_hit g1.board loc piece_kind c) then
        some (true, { g1 with board := bset g1.board loc orig, is_checked := true })
      else is_checked_goF gm c loc orig g1 rest

/-- The probe kinds of source `is_checked`, in source order (King is never
probed). -/
def probeKinds : List PieceKind :=
  [PieceKind.Pawn, PieceKind.Rook, PieceKind.Bishop, PieceKind.Knight,
   PieceKind.Queen]

/-- Source `is_checked`, parametric in the `get_moves` it calls. -/
def is_checkedF (gm : Location → Game → Option (List IVec)) (g : Game)
    (color : Color) : Option (Bool × Game) :=
  match get_king_location g.board color with
  | none => none
  | some loc => is_checked_goF gm color loc (g.board loc) g probeKinds

/-- The `.filter(..).collect()` of source `get_moves` (lines 231-252),
parametric in the `is_checked` it calls (`ick`): a candidate is dropped when
its destination is off the board, and otherwise kept exactly when the
speculative position does not put the opponent of the moving piece in
check; a `none` from the speculative check aborts the whole call. -/
def filterGoF (ick : Game → Color → Option (Bool × Game)) (loc : Location)
    (g : Game) : List IVec → Option (List IVec)
  | [] => some []
  | mv :: rest =>
    if is_out_of_bounds (locAdd loc mv) then filterGoF ick loc g rest
    else
      match g.board loc with
      | none => none
      | some piece =>
        match ick (specGame g loc mv) (opponent piece.color) with
        | none => none
        | some (b, _) =>
          if b then filterGoF ick loc g rest
          else (filterGoF ick loc g rest).map (fun ms => mv :: ms)

/-- Source `get_moves`, with the bounded call depth made explicit: compute
the per-kind pattern moves, and pipe them through the legal-move filter only
when the game's checked flag is set. -/
def get_movesF : Nat → Location → Game → Option (List IVec)
  | 0, _, _ => none
  | depth+1, loc, g =>
    match g.board loc with
    | none => none
    | some piece =>
      let moves := pattern_moves g loc piece
      if g.is_checked then
        filterGoF (is_checkedF (get_movesF depth)) loc g moves
      else some moves

/-- Source `is_checked` (lines 433-454).  Depth 2 is exact: the probes'
`get_moves` calls filter (at most) once, and the speculative games they
build never filter again because their checked flag is cleared. -/
def is_checked : Game → Color → Option (Bool × Game) :=
  is_checkedF (get_movesF 2)

/-- Source `get_moves` (lines 80-256).  Depth 3 is exact, and unfolding one
level shows that the filter calls `is_checked` as defined above. -/
def get_moves : Location → Game → Option (List IVec) :=
  get_movesF 3

/-- Source `move_to`: clear the checked flag, clear the en-passant target,
re-arm it at the destination when a pawn moves a Manhattan distance of 2,
move the piece (`board[to] = board[from]; board[from] = None`), and finish
with a print that unwraps `board[to]`.  `none` models the two panics: an
empty source square (unwrapped by the pawn test), and the final unwrap
finding the destination empty — which happens exactly when `src = dst`,
since the second write then erases the piece the first write copied. -/
def move_to (src dst : Location) (g : Game) : Option Game :=
  match g.board src with
  | none => none
  | some piece =>
    let b' := bset (bset g.board dst (g.board src)) src none
    match b' dst with
    | none => none
    | some _ =>
      some
        { board := b'
          cur_en_passant :=
            if piece.kind = PieceKind.Pawn ∧ dist src dst = 2 then some dst
            else none
          is_checked := false }

/-- Source `Piece::is_valid_move`: reject a destination held by a
same-color piece, otherwise test membership of the displacement in
`get_moves`. -/
def is_valid_move (p : Piece) (src dst : Location) (g : Game) : Option Bool :=
  if (match g.board dst with
      | some el => decide (el.color = p.color)
      | none => false) then some false
  else
    (get_moves src g).map (fun moves =>
      decide (((dst.1 : Int) - src.1, (dst.2 : Int) - src.2) ∈ moves))

/-- Source `has_no_valid_moves`: map every row to the count of its cells
(computing, and discarding, a per-cell move count on the way, which can
abort), then compare the count of rows with zero. -/
def has_no_valid_moves (g : Game) (color : Color) : Option Bool :=
  match (List.range 8).mapM (fun i =>
      ((List.range 8).mapM (fun j =>
        match g.board (j, i) with
        | some x =>
          if x.color = color then (get_moves (j, i) g).map List.length
          else some 0
        | none => some (0 : Nat))).map List.length) with
  | none => none
  | some rowCounts => some (decide (rowCounts.length = 0))

/-- Outcome of one validated-input iteration of source `main` (after
parsing, bounds checks and color/occupancy checks). -/
inductive StepOutcome where
  | invalid (g : Game) (c : Color)
  | next (g : Game) (c : Color)
  | wonByCapture (c : Color) (g : Game)
  | checkmateWin (g : Game) (c : Color)
  | stalemateEnd (g : Game)

/-- The tail of a `main` iteration after a validated non-king-capturing
move: apply the move, flip the turn owner, recompute check for the new
owner, and classify the next state (checkmate / in-check / stalemate /
ordinary next turn). -/
def after_move (g : Game) (curr : Color) (src dst : Location) :
    Option StepOutcome :=
  match move_to src dst g with
  | none => none
  | some g1 =>
    let c2 := opponent curr
    match is_checked g1 c2 with
    | none => none
    | some (b, g2) =>
      if b then
        match has_no_valid_moves g2 c2 with
        | none => none
        | some true => some (StepOutcome.checkmateWin g2 c2)
        | some false => some (StepOutcome.next g2 c2)
      else
        match has_no_valid_moves g2 c2 with
        | none => none
        | some true => some (StepOutcome.stalemateEnd g2)
        | some false => some (StepOutcome.next g2 c2)

/-- One iteration of source `main` (lines 506-559) from the point where
`from`/`to` are two on-board squares: piece lookup, color check, move
validation, the king-capture early return, and otherwise the ordinary
move/flip/check sequence. -/
def main_step (g : Game) (curr_color : Color) (src dst : Location) :
    Option StepOutcome :=
  match g.board src with
  | none => some (StepOutcome.invalid g curr_color)
  | some piece =>
    if piece.color ≠ curr_color then some (StepOutcome.invalid g curr_color)
    else
      match is_valid_move piece src dst g with
      | none => none
      | some false => some (StepOutcome.invalid g curr_color)
      | some true =>
        match g.board dst with
        | some p2 =>
          if p2.kind = PieceKind.King then
            (move_to src dst g).map (fun g' => StepOutcome.wonByCapture curr_color g')
          else after_move g curr_color src dst
        | none => after_move g curr_color src dst

/-- Build a board from a finite placement list (squares not listed are
empty). -/
def boardOf (ps : List (Location × Piece)) : Board :=
  fun l => (ps.find? (fun e => decide (e.1 = l))).map Prod.snd

def wKing : Piece := ⟨PieceKind.King, Color.White⟩
def wRook : Piece := ⟨PieceKind.Rook, Color.White⟩
def wBishop : Piece := ⟨PieceKind.Bishop, Color.White⟩
def wPawn : Piece := ⟨PieceKind.Pawn, Color.White⟩
def bKing : Piece := ⟨PieceKind.King, Color.Black⟩
def bRook : Piece := ⟨PieceKind.Rook, Color.Black⟩
def bPawn : Piece := ⟨PieceKind.Pawn, Color.Black⟩

/-- C1 scenario: White to move and flagged as checked; the white rook on
(0,1) shields the white king on (0,0) from the black rook on (0,7). -/
def gameC1 : Game :=
  { board := boardOf [((0,0), wKing), ((0,1), wRook), ((0,7), bRook), ((7,7), bKing)]
    cur_en_passant := none
    is_checked := true }

/-- C4 scenario: checked flag set; the black rook on (0,5) attacks the
white king on (0,0) along the file, while the white bishop on (6,6) pins
the whole board shut for the speculative filter (every speculative position
puts the black king on (7,7) in check). -/
def gameC4 : Game :=
  { board := boardOf [((0,0), wKing), ((6,6), wBishop), ((0,5), bRook), ((7,7), bKing)]
    cur_en_passant := none
    is_checked := true }

/-- C10 scenario: checked flag set; the white rook on (0,0) can capture the
black king on (0,5), and the speculative filter then searches for the
now-absent black king. -/
def gameC10 : Game :=
  { board := boardOf [((0,0), wRook), ((0,5), bKing)]
    cur_en_passant := none
    is_checked := true }

/-- C2 scenario: an empty board (vacuously, no White piece has any move). -/
def gameC2 : Game :=
  { board := boardOf []
    cur_en_passant := none
    is_checked := false }

/-- C5 scenario: a black pawn on its starting rank with an (artificial)
en-passant target on its forward diagonal. -/
def gameC5 : Game :=
  { board := boardOf [((0,1), bPawn)]
    cur_en_passant := some (1,2)
    is_checked := false }

/-- C3 scenario: a lone white pawn about to move diagonally (the shape of
an en-passant capture), a Manhattan distance of 2. -/
def gameC3 : Game :=
  { board := boardOf [((1,3), wPawn)]
    cur_en_passant := some (1,3)
    is_checked := false }

/-! Specification-side definitions, written from the words of the spec and
of the claims, to be compared with the embedded source functions. -/

/-- Claim C3's words: a pawn's double-step forward advance from its
starting rank (Black advances from rank 1 to rank 3 in +y, White from rank
6 to rank 4 in -y, on an unchanged file). -/
def is_double_step (p : Piece) (src dst : Location) : Prop :=
  p.kind = PieceKind.Pawn ∧ src.1 = dst.1 ∧
    ((p.color = Color.Black ∧ src.2 = 1 ∧ dst.2 = 3) ∨
     (p.color = Color.White ∧ src.2 = 6 ∧ dst.2 = 4))

instance (p : Piece) (src dst : Location) : Decidable (is_double_step p src dst) := by
  unfold is_double_step; infer_instance

/-- Claim C5 as stated: the en-passant branch takes priority even on the
starting rank ("one- and two-square forward vectors *unless* an en-passant
capture is available"), diagonals checked in the source's fixed order. -/
def pawn_moves_claim (g : Game) (loc : Location) (c : Color) : List IVec :=
  match c with
  | Color.Black =>
    if ep_diag_matches g loc (1,1) then [(1,1)]
    else if ep_diag_matches g loc (-1,1) then [(-1,1)]
    else if loc.2 = 1 then [(0,1),(0,2)]
    else [(0,1)]
  | Color.White =>
    if ep_diag_matches g loc (-1,-1) then [(-1,-1)]
    else if ep_diag_matches g loc (1,-1) then [(1,-1)]
    else if loc.2 = 6 then [(0,-1),(0,-2)]
    else [(0,-1)]

/-- Claim C5 amended: on the starting rank always exactly the one- and
two-square forward vectors (the en-passant target is never consulted
there); off the starting rank the first matching forward diagonal (source
order) wins, else the single forward vector.  Forward is +y for Black and
-y for White. -/
def pawn_moves_spec (g : Game) (loc : Location) (c : Color) : List IVec :=
  match c with
  | Color.Black =>
    if loc.2 = 1 then [(0,1),(0,2)]
    else if ep_diag_matches g loc (1,1) then [(1,1)]
    else if ep_diag_matches g loc (-1,1) then [(-1,1)]
    else [(0,1)]
  | Color.White =>
    if loc.2 = 6 then [(0,-1),(0,-2)]
    else if ep_diag_matches g loc (-1,-1) then [(-1,-1)]
    else if ep_diag_matches g loc (1,-1) then [(1,-1)]
    else [(0,-1)]

/-- The game whose king square is overwritten with a probe piece of kind
`k` and color `c` (claim C4's "temporarily overwrite the king's square"). -/
def probe_game (g : Game) (c : Color) (kloc : Location) (k : PieceKind) : Game :=
  { g with board := bset g.board kloc (some ⟨k, c⟩) }

/-- Claim C4's attack test for one probe kind: the probe placed on the
king's square has a pseudo-legal destination holding an opposing-color
piece whose kind equals the probe kind. -/
def probe_hit (g : Game) (c : Color) (kloc : Location) (k : PieceKind) : Bool :=
  (pattern_moves (probe_game g c kloc k) kloc ⟨k, c⟩).any
    (probe_dest_hit (probe_game g c kloc k).board kloc k c)

/-- Scalar multiple of a direction vector: the accumulated displacement
after `k` steps of a sliding walk. -/
def smul (k : Nat) (d : IVec) : IVec :=
  ((k : Int) * d.1, (k : Int) * d.2)

/-- Claim C6's words, counting part: the number of consecutive empty
on-board squares along direction `d`, starting at step `k` (bounded by the
same step budget as the walk). -/
def empty_run (b : Board) (loc : Location) (d : IVec) : Nat → Nat → Nat
  | _, 0 => 0
  | k, fuel+1 =>
    if is_out_of_bounds (locAdd loc (smul k d)) = false ∧
        b (toLoc (locAdd loc (smul k d))) = none then
      empty_run b loc d (k+1) fuel + 1
    else 0

/-- Claim C6's words, stopping part: the stopping square's vector is
included iff that square is on the board and the piece on its true (x,y)
pair has the opposing color. -/
def ray_capture (b : Board) (c : Color) (loc : Location) (d : IVec) (k : Nat) :
    List IVec :=
  if is_out_of_bounds (locAdd loc (smul k d)) = false then
    match b (toLoc (locAdd loc (smul k d))) with
    | some x => if x.color ≠ c then [smul k d] else []
    | none => []
  else []

/-- Claim C6's words, one direction: one vector per empty on-board
destination (the k-th vector is the k-th multiple of `d` — no wrapping),
followed by the stopping square's vector when it is an opposing-color
capture. -/
def specRayFrom (b : Board) (c : Color) (loc : Location) (d : IVec)
    (k fuel : Nat) : List IVec :=
  ((List.range (empty_run b loc d k fuel)).map (fun i => smul (k + i) d)) ++
    ray_capture b c loc d (k + empty_run b loc d k fuel)

def specRay (b : Board) (c : Color) (loc : Location) (d : IVec) : List IVec :=
  specRayFrom b c loc d 1 8

/-- The directions walked per sliding kind (queen: diagonals first, then
orthogonals, as in the source). -/
def slide_dirs : PieceKind → List IVec
  | PieceKind.Bishop => diagDirs
  | PieceKind.Rook => orthDirs
  | PieceKind.Queen => diagDirs ++ orthDirs
  | _ => []

/-- C8 scenario: a lone white rook (used for the degenerate square-to-
itself move). -/
def gameC8 : Game :=
  { board := boardOf [((2,2), wRook)]
    cur_en_passant := none
    is_checked := false }

/-- C7 scenario: a white rook a file away from the black king, White to
move. -/
def gameC7 : Game :=
  { board := boardOf [((0,0), wRook), ((0,5), bKing)]
    cur_en_passant := none
    is_checked := false }

/-- C9 scenario: a black rook attacking the white king along the file. -/
def gameC9 : Game :=
  { board := boardOf [((0,0), wKing), ((0,3), bRook)]
    cur_en_passant := none
    is_checked := false }

/-- C4 witness scenario: same attack shape as `gameC9`, with the checked
flag clear. -/
def gameC4w : Game :=
  { board := boardOf [((3,3), wKing), ((3,6), bRook)]
    cur_en_passant := none
    is_checked := false }

/-- C5 witness scenario: a white pawn off its starting rank with an
en-passant target on its left forward diagonal. -/
def gameC5w : Game :=
  { board := boardOf [((3,4), wPawn)]
    cur_en_passant := some (2,3)
    is_checked := false }

/-- C6 witness scenario: a white bishop with one same-color and one
opposing blocker on its diagonals. -/
def gameC6 : Game :=
  { board := boardOf [((3,3), wBishop), ((5,5), bPawn), ((1,1), wPawn)]
    cur_en_passant := none
    is_checked := false }

/-! Theorems. -/

/-- A square-to-itself `move_to` always aborts: the write pair empties the
square and the final unwrap panics. -/
theorem move_to_self (g : Game) (src : Location) :
    move_to src src g = none := by
  rcases h : g.board src with _ | p
  · rw [move_to, h]
  · rw [move_to, h]
    dsimp only
    rw [show (bset (bset g.board src (some p)) src none) src = none by
      simp [bset]]

/-- The returned game of a completed `move_to` between distinct squares. -/
theorem move_to_some (g : Game) (src dst : Location) (p : Piece)
    (h : g.board src = some p) (hne : src ≠ dst) :
    move_to src dst g = some
      { board := bset (bset g.board dst (some p)) src none
        cur_en_passant :=
          if p.kind = PieceKind.Pawn ∧ dist src dst = 2 then some dst else none
        is_checked := false } := by
  rw [move_to, h]
  dsimp only
  rw [show (bset (bset g.board dst (some p)) src none) dst = some p by
    simp [bset, hne.symm]]

/-- C2: `has_no_valid_moves` compares the number of board rows (always 8)
with zero, so it answers `false` even on an empty board, where every square
holding a White piece (there are none) vacuously has an empty move list —
the position the claim's intended contract maps to `true`. -/
theorem C2_theorem : has_no_valid_moves gameC2 Color.White = some false := by
  decide

/-- C3 counterexample: a white pawn moving one square diagonally (the shape
of an en-passant capture) covers a Manhattan distance of 2, so `move_to`
sets the en-passant target to its destination even though the move is not a
double-step forward advance from the starting rank. -/
theorem C3_counterexample :
    gameC3.board (1,3) = some wPawn ∧
    (move_to (1,3) (0,2) gameC3).map Game.cur_en_passant = some (some (0,2)) ∧
    ¬ is_double_step wPawn (1,3) (0,2) := by
  decide

/-- C3 amended: after every completed `move_to(from, to, game)` on an
occupied source square (the call never completes when `from = to`: the
final unwrap panics), the en-passant target equals `some to` exactly when
the moved piece is a pawn and the Manhattan distance from `from` to `to`
is 2 (no starting rank or forward-direction requirement), and is `none`
after every other move. -/
theorem C3_theorem (g : Game) (src dst : Location) (p : Piece)
    (h : g.board src = some p) (hmv : (move_to src dst g).isSome = true) :
    (((move_to src dst g).get hmv).cur_en_passant = some dst ↔
      (p.kind = PieceKind.Pawn ∧ dist src dst = 2)) ∧
    (¬ (p.kind = PieceKind.Pawn ∧ dist src dst = 2) →
      ((move_to src dst g).get hmv).cur_en_passant = none) := by
  have hne : src ≠ dst := by
    intro he
    subst he
    rw [move_to_self] at hmv
    simp at hmv
  have hget : (move_to src dst g).get hmv =
      { board := bset (bset g.board dst (some p)) src none
        cur_en_passant :=
          if p.kind = PieceKind.Pawn ∧ dist src dst = 2 then some dst else none
        is_checked := false } := by
    simp [move_to_some g src dst p h hne]
  rw [hget]
  by_cases hc : p.kind = PieceKind.Pawn ∧ dist src dst = 2 <;> simp [hc]

/-- C3 witness: the amended statement at the concrete diagonal pawn move. -/
theorem C3_witness :
    gameC3.board (1,3) = some wPawn ∧
    (move_to (1,3) (0,2) gameC3).isSome = true ∧
    ((((move_to (1,3) (0,2) gameC3).get (by decide)).cur_en_passant =
        some (0,2) ↔
      (wPawn.kind = PieceKind.Pawn ∧ dist (1,3) (0,2) = 2)) ∧
    (¬ (wPawn.kind = PieceKind.Pawn ∧ dist (1,3) (0,2) = 2) →
      ((move_to (1,3) (0,2) gameC3).get (by decide)).cur_en_passant = none)) :=
  ⟨by decide, by decide, C3_theorem gameC3 (1,3) (0,2) wPawn (by decide) (by decide)⟩

/-- C8: whenever `move_to` completes from an occupied source square (it
aborts when `from = to`: the final print's unwrap finds the square emptied
by the two writes, so no state is ever returned there), the destination
holds exactly the moved piece, the source square is empty, every other
square is unchanged, and re-querying `get_moves` at the destination
succeeds — the occupied-square precondition is never violated. -/
theorem C8_theorem (g : Game) (src dst : Location) (p : Piece)
    (h : g.board src = some p) (hmv : (move_to src dst g).isSome = true) :
    ((move_to src dst g).get hmv).board dst = some p ∧
    ((move_to src dst g).get hmv).board src = none ∧
    (∀ l, l ≠ src → l ≠ dst →
      ((move_to src dst g).get hmv).board l = g.board l) ∧
    ∃ ms, get_moves dst ((move_to src dst g).get hmv) = some ms := by
  have hne : src ≠ dst := by
    intro he
    subst he
    rw [move_to_self] at hmv
    simp at hmv
  have hget : (move_to src dst g).get hmv =
      { board := bset (bset g.board dst (some p)) src none
        cur_en_passant :=
          if p.kind = PieceKind.Pawn ∧ dist src dst = 2 then some dst else none
        is_checked := false } := by
    simp [move_to_some g src dst p h hne]
  rw [hget]
  refine ⟨?_, ?_, ?_, ?_⟩
  · simp [bset, hne.symm]
  · simp [bset]
  · intro l hls hld
    simp [bset, hls, hld]
  · show ∃ ms, get_movesF 3 dst _ = some ms
    rw [get_movesF]
    simp [bset, hne.symm]

/-- C8 witness: the frame statement at a concrete one-square move. -/
theorem C8_witness :
    gameC8.board (2,2) = some wRook ∧
    (move_to (2,2) (3,3) gameC8).isSome = true ∧
    (((move_to (2,2) (3,3) gameC8).get (by decide)).board (3,3) = some wRook ∧
     ((move_to (2,2) (3,3) gameC8).get (by decide)).board (2,2) = none ∧
     (∀ l, l ≠ (2,2) → l ≠ (3,3) →
       ((move_to (2,2) (3,3) gameC8).get (by decide)).board l =
         gameC8.board l) ∧
     ∃ ms, get_moves (3,3)
       ((move_to (2,2) (3,3) gameC8).get (by decide)) = some ms) :=
  ⟨by decide, by decide,
    C8_theorem gameC8 (2,2) (3,3) wRook (by decide) (by decide)⟩

/-- C10: with the checked flag set, the white rook's pseudo-legal capture
of the black king is fed to the speculative filter, which applies the
capture and then searches for the (now absent) black king; the search comes
back empty — the source panics with `King already dead?` — so `get_moves`
aborts instead of returning. -/
theorem C10_theorem :
    gameC10.is_checked = true ∧
    gameC10.board (0,0) = some wRook ∧
    (0,5) ∈ pattern_moves gameC10 (0,0) wRook ∧
    get_king_location (specGame gameC10 (0,0) (0,5)).board Color.Black = none ∧
    get_moves (0,0) gameC10 = none := by
  decide

/-- C7: when a validated move's destination holds a king (necessarily the
opponent's, since validation rejects same-color destinations), the main
loop applies the move and returns the capture-win outcome for the mover:
the turn owner is not flipped, `is_checked` and `has_no_valid_moves` are
not consulted (the resulting game is exactly `move_to`'s output), and the
outcome is distinct from the checkmate outcome. -/
theorem C7_theorem (g : Game) (curr : Color) (src dst : Location) (p p2 : Piece)
    (hs : g.board src = some p) (hc : p.color = curr)
    (hv : is_valid_move p src dst g = some true)
    (hd : g.board dst = some p2) (hk : p2.kind = PieceKind.King) :
    ∃ g', move_to src dst g = some g' ∧
      main_step g curr src dst = some (StepOutcome.wonByCapture curr g') ∧
      (∀ g2 c2, StepOutcome.wonByCapture curr g' ≠ StepOutcome.checkmateWin g2 c2) := by
  have hne : src ≠ dst := by
    intro he
    subst he
    rw [hs] at hd
    obtain rfl := Option.some.inj hd
    rw [is_valid_move, hs] at hv
    simp at hv
  have hmv := move_to_some g src dst p hs hne
  refine ⟨_, hmv, ?_, ?_⟩
  · simp [main_step, hs, hc, hv, hd, hk, hmv]
  · intro g2 c2 hcontra
    cases hcontra

/-- C7 witness: the concrete rook capture of the black king. -/
theorem C7_witness :
    gameC7.board (0,0) = some wRook ∧ wRook.color = Color.White ∧
    is_valid_move wRook (0,0) (0,5) gameC7 = some true ∧
    gameC7.board (0,5) = some bKing ∧ bKing.kind = PieceKind.King ∧
    (∃ g', move_to (0,0) (0,5) gameC7 = some g' ∧
      main_step gameC7 Color.White (0,0) (0,5) =
        some (StepOutcome.wonByCapture Color.White g') ∧
      (∀ g2 c2, StepOutcome.wonByCapture Color.White g' ≠
        StepOutcome.checkmateWin g2 c2)) :=
  ⟨by decide, by decide, by decide, by decide, by decide,
    C7_theorem gameC7 Color.White (0,0) (0,5) wRook bKing (by decide) (by decide)
      (by decide) (by decide) (by decide)⟩

/-- C5 counterexample: a black pawn on its starting rank with the
en-passant target on its forward-right diagonal still generates exactly the
one- and two-square forward vectors — the source only consults the
en-passant target off the starting rank, so the claimed "unless an
en-passant capture is available" override does not exist there. -/
theorem C5_counterexample :
    gameC5.board (0,1) = some bPawn ∧
    ep_diag_matches gameC5 (0,1) (1,1) = true ∧
    get_moves (0,1) gameC5 = some [(0,1),(0,2)] ∧
    pawn_moves_claim gameC5 (0,1) Color.Black = [(1,1)] ∧
    some [((0:Int),(1:Int)),(0,2)] ≠ some [((1:Int),(1:Int))] := by
  decide

/-- The two-diagonal en-passant scan is first-match-wins. -/
theorem pawn_ep_scan_pair (g : Game) (loc : Location) (d1 d2 fwd : IVec) :
    pawn_ep_scan g loc [d1, d2] fwd =
      (if ep_diag_matches g loc d1 then [d1]
       else if ep_diag_matches g loc d2 then [d2]
       else [fwd]) := by
  unfold pawn_ep_scan
  cases e1 : ep_diag_matches g loc d1 <;> cases e2 : ep_diag_matches g loc d2 <;>
    simp [List.find?, e1, e2]

/-- C5 amended: on the starting rank the generated move set is always
exactly the one- and two-square forward vectors (the en-passant target is
never consulted there); off the starting rank it is the single diagonal
toward the first matching en-passant target (source diagonal order), else
the single forward vector; forward is +y for Black, -y for White. -/
theorem C5_theorem (g : Game) (loc : Location) (c : Color)
    (hp : g.board loc = some ⟨PieceKind.Pawn, c⟩) (hf : g.is_checked = false) :
    get_moves loc g = some (pawn_moves_spec g loc c) := by
  show get_movesF 3 loc g = _
  rw [get_movesF, hp]
  cases c <;>
    simp only [pattern_moves, pawn_moves_spec, pawn_ep_scan_pair, hf,
      Bool.false_eq_true, if_false]

/-- C5 witness: the amended statement for a white pawn off its starting
rank whose left forward diagonal is the en-passant target. -/
theorem C5_witness :
    gameC5w.board (3,4) = some ⟨PieceKind.Pawn, Color.White⟩ ∧
    gameC5w.is_checked = false ∧
    get_moves (3,4) gameC5w = some (pawn_moves_spec gameC5w (3,4) Color.White) :=
  ⟨by decide, by decide,
    C5_theorem gameC5w (3,4) Color.White (by decide) (by decide)⟩

/-- Frame property of the probe loop: on any normal return the board holds
`orig` at the king's square and the entry contents everywhere else, the
en-passant target is untouched, the checked flag is `true` on a hit and the
entry flag otherwise. -/
theorem is_checked_goF_frame (gm : Location → Game → Option (List IVec))
    (c : Color) (kloc : Location) (orig : Option Piece) :
    ∀ (ks : List PieceKind) (gi : Game) (r : Bool × Game),
      is_checked_goF gm c kloc orig gi ks = some r →
      (∀ l, r.2.board l = if l = kloc then orig else gi.board l) ∧
      r.2.cur_en_passant = gi.cur_en_passant ∧
      (r.1 = true → r.2.is_checked = true) ∧
      (r.1 = false → r.2.is_checked = gi.is_checked) := by
  intro ks
  induction ks with
  | nil =>
    intro gi r h
    rw [is_checked_goF] at h
    obtain rfl := Option.some.inj h
    refine ⟨?_, rfl, ?_, ?_⟩
    · intro l
      by_cases hl : l = kloc <;> simp [bset, hl]
    · intro hcontra
      cases hcontra
    · intro _
      rfl
  | cons k ks ih =>
    intro gi r h
    rw [is_checked_goF] at h
    rcases hgm : gm kloc { gi with board := bset gi.board kloc (some ⟨k, c⟩) } with
      _ | mvs
    · rw [hgm] at h
      cases h
    · rw [hgm] at h
      dsimp only at h
      split at h
      · obtain rfl := Option.some.inj h
        refine ⟨?_, rfl, ?_, ?_⟩
        · intro l
          by_cases hl : l = kloc <;> simp [bset, hl]
        · intro _
          rfl
        · intro hcontra
          cases hcontra
      · obtain ⟨hb, hep, ht, hf⟩ := ih _ r h
        refine ⟨?_, hep, ht, hf⟩
        intro l
        rw [hb l]
        by_cases hl : l = kloc <;> simp [bset, hl]

/-- C9: on every normal return, `is_checked` has restored the board (the
king's square holds its original occupant, every other square is
untouched); it sets the checked flag to `true` exactly on a `true` return
and never writes `false` (on a `false` return the flag keeps its entry
value). -/
theorem C9_theorem (g : Game) (c : Color) (hk : (is_checked g c).isSome = true) :
    (∀ l, ((is_checked g c).get hk).2.board l = g.board l) ∧
    (((is_checked g c).get hk).1 = true →
      ((is_checked g c).get hk).2.is_checked = true) ∧
    (((is_checked g c).get hk).1 = false →
      ((is_checked g c).get hk).2.is_checked = g.is_checked) := by
  obtain ⟨r, hr⟩ := Option.isSome_iff_exists.mp hk
  have hget : (is_checked g c).get hk = r := by simp [hr]
  have hex : ∃ kloc, get_king_location g.board c = some kloc := by
    rcases hkl : get_king_location g.board c with _ | kloc
    · exfalso
      rw [is_checked, is_checkedF, hkl] at hr
      cases hr
    · exact ⟨kloc, rfl⟩
  obtain ⟨kloc, hkl⟩ := hex
  have hgo : is_checked_goF (get_movesF 2) c kloc (g.board kloc) g probeKinds
      = some r := by
    rw [is_checked, is_checkedF, hkl] at hr
    exact hr
  obtain ⟨hb, hep, ht, hf⟩ :=
    is_checked_goF_frame (get_movesF 2) c kloc (g.board kloc) probeKinds g r hgo
  rw [hget]
  refine ⟨?_, ht, hf⟩
  intro l
  rw [hb l]
  by_cases hl : l = kloc <;> simp [hl]

/-- C9 witness: the concrete rook check on the white king. -/
theorem C9_witness :
    (∀ l, ((is_checked gameC9 Color.White).get (by decide)).2.board l =
      gameC9.board l) ∧
    (((is_checked gameC9 Color.White).get (by decide)).1 = true →
      ((is_checked gameC9 Color.White).get (by decide)).2.is_checked = true) ∧
    (((is_checked gameC9 Color.White).get (by decide)).1 = false →
      ((is_checked gameC9 Color.White).get (by decide)).2.is_checked =
        gameC9.is_checked) :=
  C9_theorem gameC9 Color.White (by decide)

/-- The pattern generator reads only the board and the en-passant target,
never the checked flag. -/
theorem pattern_moves_congr (g g' : Game) (loc : Location) (piece : Piece)
    (hb : g.board = g'.board) (he : g.cur_en_passant = g'.cur_en_passant) :
    pattern_moves g loc piece = pattern_moves g' loc piece := by
  have hep : ep_diag_matches g loc = ep_diag_matches g' loc := by
    funext dir
    simp [ep_diag_matches, he]
  obtain ⟨pk, pc⟩ := piece
  cases pk <;> cases pc <;>
    simp [pattern_moves, pawn_ep_scan, slideFrom, hb, hep]

/-- Characterisation of the probe loop's verdict when the surrounding game
is unfiltered: it reports `true` exactly when some listed probe kind has a
pattern-move destination holding an opposing piece of that kind. -/
theorem is_checked_goF_hit (c : Color) (kloc : Location) (orig : Option Piece)
    (g : Game) :
    ∀ (ks : List PieceKind) (gi : Game),
      gi.is_checked = false → gi.cur_en_passant = g.cur_en_passant →
      (∀ l, l ≠ kloc → gi.board l = g.board l) →
      ((is_checked_goF (get_movesF 2) c kloc orig gi ks).map Prod.fst = some true ↔
        ∃ k ∈ ks, probe_hit g c kloc k = true) := by
  intro ks
  induction ks with
  | nil =>
    intro gi _ _ _
    rw [is_checked_goF]
    simp
  | cons k ks ih =>
    intro gi hif hie hib
    have hg1b : bset gi.board kloc (some ⟨k, c⟩) = (probe_game g c kloc k).board := by
      funext l
      by_cases hl : l = kloc
      · simp [bset, probe_game, hl]
      · simp [bset, probe_game, hl, hib l hl]
    have hgm : get_movesF 2 kloc { gi with board := bset gi.board kloc (some ⟨k, c⟩) }
        = some (pattern_moves (probe_game g c kloc k) kloc ⟨k, c⟩) := by
      rw [get_movesF]
      dsimp only
      rw [show (bset gi.board kloc (some ⟨k, c⟩)) kloc = some ⟨k, c⟩ by simp [bset]]
      rw [hif]
      simp only [Bool.false_eq_true, if_false, Option.some.injEq]
      exact pattern_moves_congr _ _ kloc ⟨k, c⟩ hg1b (by simpa [probe_game] using hie)
    rw [is_checked_goF, hgm]
    dsimp only
    rw [show probe_dest_hit (bset gi.board kloc (some ⟨k, c⟩)) kloc k c =
        probe_dest_hit (probe_game g c kloc k).board kloc k c by rw [hg1b]]
    rw [show (pattern_moves (probe_game g c kloc k) kloc ⟨k, c⟩).any
        (probe_dest_hit (probe_game g c kloc k).board kloc k c) =
        probe_hit g c kloc k from rfl]
    by_cases hhit : probe_hit g c kloc k = true
    · rw [if_pos hhit]
      exact iff_of_true rfl ⟨k, List.mem_cons_self k ks, hhit⟩
    · rw [if_neg hhit]
      rw [ih { gi with board := bset gi.board kloc (some ⟨k, c⟩) } hif hie
        (fun l hl => by simp [bset, hl, hib l hl])]
      simp [hhit]

/-- C4 counterexample: with the checked flag set, the probes' own
`get_moves` calls run the speculative legal-move filter; in `gameC4` the
white bishop on (6,6) keeps the black king on (7,7) permanently in check,
so every probe move from the white king's square is filtered out and
`is_checked` answers `false` — yet the rook probe's pseudo-legal moves do
reach the black rook on (0,5). -/
theorem C4_counterexample :
    gameC4.is_checked = true ∧
    get_king_location gameC4.board Color.White = some (0,0) ∧
    (is_checked gameC4 Color.White).map Prod.fst = some false ∧
    PieceKind.Rook ∈ probeKinds ∧
    probe_hit gameC4 Color.White (0,0) PieceKind.Rook = true := by
  decide

/-- C4 amended: for a game whose checked flag is clear and whose board
holds a king of color `c`, `is_checked` answers `true` exactly when some
probe kind in {Pawn, Rook, Bishop, Knight, Queen} (King is never probed),
placed on the king's square, has a pseudo-legal destination holding an
opposing-color piece of the probe's kind. -/
theorem C4_theorem (g : Game) (c : Color) (kloc : Location)
    (hk : get_king_location g.board c = some kloc) (hf : g.is_checked = false) :
    ((is_checked g c).map Prod.fst = some true ↔
      ∃ k ∈ probeKinds, probe_hit g c kloc k = true) := by
  rw [is_checked, is_checkedF, hk]
  exact is_checked_goF_hit c kloc (g.board kloc) g probeKinds g hf rfl
    (fun _ _ => rfl)

/-- C4 witness: the amended statement at the concrete rook check. -/
theorem C4_witness :
    get_king_location gameC4w.board Color.White = some (3,3) ∧
    gameC4w.is_checked = false ∧
    ((is_checked gameC4w Color.White).map Prod.fst = some true ↔
      ∃ k ∈ probeKinds, probe_hit gameC4w Color.White (3,3) k = true) :=
  ⟨by decide, by decide, C4_theorem gameC4w Color.White (3,3) (by decide) (by decide)⟩

/-- Membership characterisation of the legal-move filter: a vector survives
exactly when it was a candidate, its destination is on the board, and the
speculative check of the mover's opponent comes back `false`. -/
theorem filterGoF_mem (ick : Game → Color → Option (Bool × Game)) (loc : Location)
    (g : Game) (p : Piece) (hp : g.board loc = some p) :
    ∀ (cands ms : List IVec), filterGoF ick loc g cands = some ms →
      ∀ mv, mv ∈ ms ↔ (mv ∈ cands ∧ is_out_of_bounds (locAdd loc mv) = false ∧
        ∃ g2, ick (specGame g loc mv) (opponent p.color) = some (false, g2)) := by
  intro cands
  induction cands with
  | nil =>
    intro ms h mv
    rw [filterGoF] at h
    obtain rfl := Option.some.inj h
    simp
  | cons cand rest ih =>
    intro ms h mv
    rw [filterGoF] at h
    by_cases hoob : is_out_of_bounds (locAdd loc cand) = true
    · rw [if_pos hoob] at h
      rw [ih ms h mv]
      constructor
      · rintro ⟨hm, hP⟩
        exact ⟨List.mem_cons_of_mem _ hm, hP⟩
      · rintro ⟨hm, hP⟩
        rcases List.mem_cons.mp hm with rfl | hm'
        · rw [hoob] at hP
          cases hP.1
        · exact ⟨hm', hP⟩
    · rw [if_neg hoob] at h
      rw [hp] at h
      dsimp only at h
      rcases hick : ick (specGame g loc cand) (opponent p.color) with _ | ⟨b, g2⟩
      · rw [hick] at h
        cases h
      · rw [hick] at h
        dsimp only at h
        cases b with
        | true =>
          rw [if_pos rfl] at h
          rw [ih ms h mv]
          constructor
          · rintro ⟨hm, hP⟩
            exact ⟨List.mem_cons_of_mem _ hm, hP⟩
          · rintro ⟨hm, hP⟩
            rcases List.mem_cons.mp hm with rfl | hm'
            · obtain ⟨g3, hg3⟩ := hP.2
              rw [hick] at hg3
              cases Option.some.inj hg3
            · exact ⟨hm', hP⟩
        | false =>
          rw [if_neg (by simp)] at h
          rcases hrest : filterGoF ick loc g rest with _ | ms'
          · rw [hrest] at h
            cases h
          · rw [hrest] at h
            dsimp only [Option.map] at h
            obtain rfl := Option.some.inj h
            rw [List.mem_cons]
            constructor
            · rintro (rfl | hm')
              · exact ⟨List.mem_cons_self _ _,
                  Bool.not_eq_true _ ▸ hoob, g2, hick⟩
              · obtain ⟨hm, hP⟩ := (ih ms' hrest mv).mp hm'
                exact ⟨List.mem_cons_of_mem _ hm, hP⟩
            · rintro ⟨hm, hP⟩
              rcases List.mem_cons.mp hm with rfl | hm'
              · exact Or.inl rfl
              · exact Or.inr ((ih ms' hrest mv).mpr ⟨hm', hP⟩)

/-- C1 counterexample: in `gameC1` (checked flag set) the white rook's
sideways step (1,0) off the a-file is retained by the filter — the
speculative check of Black comes back `false` — even though the speculative
position leaves the mover's own (White) king in check from the black rook
on (0,7). -/
theorem C1_counterexample :
    gameC1.is_checked = true ∧
    gameC1.board (0,1) = some wRook ∧ wRook.color = Color.White ∧
    (1,0) ∈ (get_moves (0,1) gameC1).getD [] ∧
    (is_checked (specGame gameC1 (0,1) (1,0)) Color.White).map Prod.fst =
      some true := by
  decide

/-- C1 amended: with the checked flag set, a pseudo-legal candidate is
retained iff its destination is on the board and the speculative position
(checked flag cleared, candidate applied on a board copy) does not leave
the *opponent's* king in check — the filter probes the opponent of the
mover, not the mover's own king. -/
theorem C1_theorem (g : Game) (loc : Location) (p : Piece) (ms : List IVec)
    (hf : g.is_checked = true) (hp : g.board loc = some p)
    (hm : get_moves loc g = some ms) (mv : IVec) :
    (mv ∈ ms ↔ (mv ∈ pattern_moves g loc p ∧
      is_out_of_bounds (locAdd loc mv) = false ∧
      ∃ g2, is_checked (specGame g loc mv) (opponent p.color) = some (false, g2))) := by
  have hm' : filterGoF is_checked loc g (pattern_moves g loc p) = some ms := by
    rw [get_moves, get_movesF, hp] at hm
    dsimp only at hm
    rw [if_pos hf] at hm
    exact hm
  exact filterGoF_mem is_checked loc g p hp (pattern_moves g loc p) ms hm' mv

/-- C1 witness: the amended statement at the concrete checked position. -/
theorem C1_witness :
    gameC1.is_checked = true ∧
    gameC1.board (0,1) = some wRook ∧
    get_moves (0,1) gameC1 =
      some [(1,0),(2,0),(3,0),(4,0),(5,0),(6,0),(0,1),(0,2),(0,3),(0,4),(0,5)] ∧
    ((1,0) ∈ ([(1,0),(2,0),(3,0),(4,0),(5,0),(6,0),(0,1),(0,2),(0,3),(0,4),(0,5)] :
        List IVec) ↔
      ((1,0) ∈ pattern_moves gameC1 (0,1) wRook ∧
        is_out_of_bounds (locAdd (0,1) (1,0)) = false ∧
        ∃ g2, is_checked (specGame gameC1 (0,1) (1,0)) (opponent wRook.color) =
          some (false, g2))) :=
  ⟨by decide, by decide, by decide,
    C1_theorem gameC1 (0,1) wRook
      [(1,0),(2,0),(3,0),(4,0),(5,0),(6,0),(0,1),(0,2),(0,3),(0,4),(0,5)]
      (by decide) (by decide) (by decide) (1,0)⟩

/-- Advancing the accumulated displacement by one step is the next scalar
multiple of the direction. -/
theorem smul_succ (k : Nat) (d : IVec) :
    (((smul k d).1 + d.1, (smul k d).2 + d.2) : IVec) = smul (k+1) d := by
  simp only [smul, Prod.mk.injEq]
  constructor <;> push_cast <;> ring

/-- From an on-board square, the ninth step of a unit direction is always
off the board. -/
theorem oob_at_nine (loc : Location) (d : IVec) (hx : loc.1 < 8) (hy : loc.2 < 8)
    (hd : d ∈ diagDirs ∨ d ∈ orthDirs) :
    is_out_of_bounds (locAdd loc (smul 9 d)) = true := by
  rcases hd with hd | hd <;> simp only [diagDirs, orthDirs, List.mem_cons,
      List.mem_singleton, List.not_mem_nil, or_false] at hd <;>
    rcases hd with rfl | rfl | rfl | rfl <;>
      simp [is_out_of_bounds, locAdd, smul] <;> omega

/-- The sliding walk computes the spec's ray: one vector per leading empty
on-board square, then the stopping square's vector iff it holds an
opposing-color piece. -/
theorem slideGo_eq (b : Board) (c : Color) (loc : Location) (d : IVec)
    (hx : loc.1 < 8) (hy : loc.2 < 8) (hd : d ∈ diagDirs ∨ d ∈ orthDirs) :
    ∀ (fuel k : Nat), 1 ≤ k → k + fuel = 9 →
      slideGo b loc c d (smul k d) fuel = specRayFrom b c loc d k fuel := by
  intro fuel
  induction fuel with
  | zero =>
    intro k _ hk9
    obtain rfl : k = 9 := by omega
    show [] = specRayFrom b c loc d 9 0
    rw [specRayFrom, empty_run]
    simp [ray_capture, oob_at_nine loc d hx hy hd]
  | succ fuel ih =>
    intro k hk1 hk9
    rw [slideGo]
    by_cases hoob : is_out_of_bounds (locAdd loc (smul k d)) = true
    · rw [if_pos hoob]
      rw [specRayFrom, empty_run]
      rw [if_neg (by simp [hoob])]
      simp [ray_capture, hoob]
    · rw [if_neg hoob]
      have hoob' : is_out_of_bounds (locAdd loc (smul k d)) = false :=
        eq_false_of_ne_true hoob
      rcases hb : b (toLoc (locAdd loc (smul k d))) with _ | x
      · dsimp only
        rw [smul_succ]
        rw [ih (k+1) (by omega) (by omega)]
        have hrun : empty_run b loc d k (fuel+1) =
            empty_run b loc d (k+1) fuel + 1 := by
          rw [empty_run, if_pos ⟨hoob', hb⟩]
        rw [specRayFrom, specRayFrom, hrun, List.range_succ_eq_map,
          List.map_cons, List.map_map, List.cons_append]
        have hcap : k + (empty_run b loc d (k + 1) fuel + 1) =
            k + 1 + empty_run b loc d (k + 1) fuel := by omega
        have hhead : smul (k + 0) d = smul k d := by rw [Nat.add_zero]
        have hcomp : ((fun i => smul (k + i) d) ∘ Nat.succ) =
            (fun i => smul (k + 1 + i) d) := by
          funext i
          simp only [Function.comp_apply, smul, Prod.mk.injEq]
          constructor <;> (push_cast; ring)
        rw [hcap, hhead, hcomp]
      · rw [specRayFrom, empty_run]
        rw [if_neg (by simp [hb])]
        simp only [List.range_zero, List.map_nil, List.nil_append, Nat.add_zero]
        rw [ray_capture, if_pos hoob', hb]

/-- The per-direction walk equals the spec ray. -/
theorem slideFrom_eq_specRay (b : Board) (c : Color) (loc : Location) (d : IVec)
    (hx : loc.1 < 8) (hy : loc.2 < 8) (hd : d ∈ diagDirs ∨ d ∈ orthDirs) :
    slideFrom b loc c d = specRay b c loc d := by
  have h1 : d = smul 1 d := by simp [smul]
  rw [slideFrom, specRay]
  nth_rewrite 2 [h1]
  exact slideGo_eq b c loc d hx hy hd 8 1 (by omega) (by omega)

/-- Direction-list version of the walk/ray equality. -/
theorem flatMap_slide_eq (b : Board) (c : Color) (loc : Location)
    (hx : loc.1 < 8) (hy : loc.2 < 8) (ds : List IVec)
    (hds : ∀ d ∈ ds, d ∈ diagDirs ∨ d ∈ orthDirs) :
    ds.flatMap (slideFrom b loc c) = ds.flatMap (specRay b c loc) := by
  induction ds with
  | nil => rfl
  | cons d ds ih =>
    simp only [List.flatMap_cons]
    rw [slideFrom_eq_specRay b c loc d hx hy (hds d (List.mem_cons_self d ds)),
      ih (fun e he => hds e (List.mem_cons_of_mem d he))]

/-- C6: for a bishop, rook or queen on an on-board square of an unfiltered
game, `get_moves` is exactly the concatenation, over that kind's fixed
direction list, of the spec rays: one vector per empty on-board destination
(successive multiples of the direction — no wrapping), stopping at the
first occupied on-board square or the board edge, the stopping square's
vector included iff the piece on its true (x,y) square has the opposing
color. -/
theorem C6_theorem (g : Game) (loc : Location) (p : Piece)
    (hx : loc.1 < 8) (hy : loc.2 < 8) (hf : g.is_checked = false)
    (hp : g.board loc = some p)
    (hk : p.kind = PieceKind.Bishop ∨ p.kind = PieceKind.Rook ∨
      p.kind = PieceKind.Queen) :
    get_moves loc g = some ((slide_dirs p.kind).flatMap (specRay g.board p.color loc)) := by
  show get_movesF 3 loc g = _
  rw [get_movesF, hp]
  dsimp only
  rw [hf]
  simp only [Bool.false_eq_true, if_false, Option.some.injEq]
  obtain ⟨pk, pc⟩ := p
  dsimp only at hk ⊢
  rcases hk with rfl | rfl | rfl <;>
    simp only [pattern_moves, slide_dirs] <;>
    rw [flatMap_slide_eq g.board pc loc hx hy _ (by decide)]
  rw [List.flatMap_append,
    flatMap_slide_eq g.board pc loc hx hy orthDirs (by decide)]

/-- C6 witness: the ray characterisation at a concrete bishop position with
one same-color and one opposing blocker. -/
theorem C6_witness :
    gameC6.board (3,3) = some wBishop ∧ gameC6.is_checked = false ∧
    get_moves (3,3) gameC6 =
      some ((slide_dirs wBishop.kind).flatMap
        (specRay gameC6.board wBishop.color (3,3))) :=
  ⟨by decide, by decide,
    C6_theorem gameC6 (3,3) wBishop (by decide) (by decide) (by decide)
      (by decide) (Or.inl (by decide))⟩

end Chess
